import Mathlib

/-!
# Verification of `fmu.dataio._utils` (fmu-dataio)

A shallow embedding, in Lean 4, of the helper functions in
`src/fmu/dataio/_utils.py`, together with theorems settling the claims
about them.

Modelling conventions:

* Python strings are Lean `String`s; character-level work happens on
  `String.data : List Char`.  Python's `str.lower` is modelled per-character
  with `Char.toLower` (an ASCII model of the Unicode original).
* Python's whitespace set for `str.split()` is modelled by the ASCII
  whitespace characters.
* `pathlib.Path` values are modelled by their list of path components
  (`PyPath`), where `Path(outroot)` keeps `outroot` as a single opaque
  component and `/` appends one component.
* Optional string arguments are `Option String`; Python truthiness for them
  is "present and non-empty" (`pyTruthy`).  For the timestamp arguments
  `t1`/`t2` the `Option String` holds the `str()` rendering of the Python
  value.
* Functions that may raise are modelled with `Except PyErr`; the exception
  class that Python would raise is recorded in the error value.
* Machine words (in the MD5 model) are `Nat`s kept below `2^32` explicitly.
-/

namespace FmuDataio

/-- The Python exception classes that the modelled functions can raise. -/
inductive PyErr : Type where
  | unboundLocalError : PyErr
  | runtimeError : PyErr
  | typeError : PyErr
deriving DecidableEq, Repr

/-! ## Python string primitives -/

/-- The ASCII whitespace characters recognised by Python's `str.split()`
(model of the Unicode whitespace set). -/
def pyIsSpace (c : Char) : Bool :=
  c = ' ' || c = '\t' || c = '\n' || c = '\r' || c = '\x0b' || c = '\x0c'

/-- Helper for `pySplitWS`: walk the characters keeping the (reversed)
current token in `acc`; whitespace ends a token, empty tokens are dropped. -/
def splitWSAux : List Char → List Char → List (List Char)
  | [], acc => if acc.isEmpty then [] else [acc.reverse]
  | c :: rest, acc =>
    if pyIsSpace c then
      if acc.isEmpty then splitWSAux rest []
      else acc.reverse :: splitWSAux rest []
    else splitWSAux rest (c :: acc)

/-- Python `line.split()` (no separator argument): split on runs of
whitespace, discarding empty tokens. -/
def pySplitWS (s : String) : List String :=
  (splitWSAux s.data []).map String.mk

/-- Split a character list on a separator character, Python
`str.split(sep)` style: empty fields are kept, and the empty input gives
one empty field. -/
def splitOnCharAux (sep : Char) : List Char → List (List Char)
  | [] => [[]]
  | c :: rest =>
    match splitOnCharAux sep rest with
    | [] => [[c]]
    | g :: gs => if c = sep then [] :: g :: gs else (c :: g) :: gs

/-- Python `s.split(":")` and friends: split on a single-character
separator keeping empty fields. -/
def pySplitChar (sep : Char) (s : String) : List String :=
  (splitOnCharAux sep s.data).map String.mk

/-- Python `sep.join(tokens)` for a single-character separator. -/
def pyJoinChar (sep : Char) : List String → String
  | [] => ""
  | [t] => t
  | t :: rest => t ++ String.mk [sep] ++ pyJoinChar sep rest

/-- Python `str.lower()`, per character (ASCII model). -/
def pyLower (s : String) : String :=
  String.mk (s.data.map Char.toLower)

/-- Python truthiness of an optional string argument: present and
non-empty. -/
def pyTruthy : Option String → Bool
  | none => false
  | some s => !s.isEmpty

/-- Python `str.replace(old, new)` for a single-character `old`
(replaces every occurrence). -/
def pyReplaceChar (old new : Char) (s : String) : String :=
  String.mk (s.data.map fun c => if c = old then new else c)

/-! ## `construct_filename` (C1, C2, C9) -/

/-- A `pathlib.Path`, modelled as its component list; `Path(outroot)` is the
single component `[outroot]` and `p / q` appends the component `q`. -/
def PyPath : Type := List String
deriving DecidableEq, Repr

/-- `Path(s)`: a path with the given string as its single component. -/
def PyPath.ofString (s : String) : PyPath := [s]

/-- The `/` operator on `pathlib.Path`: append one component. -/
def PyPath.join (p : PyPath) (c : String) : PyPath :=
  List.append p [c]

/-- `construct_filename` from `_utils.py`.  Returns the `(stem, dest)` pair;
for `fmu ≠ 1` no branch assigns `dest`, so the Python `return` raises
`UnboundLocalError`, modelled as the error result. -/
def construct_filename
    (name : String)
    (pretagname : Option String := none)
    (tagname : Option String := none)
    (t1 : Option String := none)
    (t2 : Option String := none)
    (subfolder : Option String := none)
    (fmu : Nat := 1)
    (outroot : String := "../../share/results/")
    (loc : String := "surface")
    (verbosity : String := "WARNING")
    : Except PyErr (String × PyPath) :=
  let _ := verbosity
  let outrootP := PyPath.ofString outroot
  if fmu = 1 then
    let stem := pyLower name
    let stem := if pyTruthy tagname then stem ++ "--" ++ pyLower (tagname.getD "") else stem
    let stem := if pyTruthy pretagname then pyLower (pretagname.getD "") ++ "--" ++ stem else stem
    let stem :=
      if pyTruthy t1 && !pyTruthy t2 then stem ++ "--" ++ pyLower (t1.getD "")
      else if pyTruthy t1 && pyTruthy t2 then
        stem ++ "--" ++ pyLower (t2.getD "") ++ "_" ++ pyLower (t1.getD "")
      else stem
    let stem := pyReplaceChar ' ' '_' (pyReplaceChar '.' '_' stem)
    let dest :=
      if loc = "surface" then outrootP.join "maps"
      else if loc = "grid" then outrootP.join "grids"
      else if loc = "table" then outrootP.join "tables"
      else if loc = "polygons" then outrootP.join "polygons"
      else if loc = "cube" then outrootP.join "cubes"
      else outrootP.join "other"
    let dest := if pyTruthy subfolder then dest.join (subfolder.getD "") else dest
    Except.ok (stem, dest)
  else
    -- `stem` was assigned "unset" but `dest` was never assigned: `return
    -- stem, dest` raises UnboundLocalError before returning anything.
    Except.error PyErr.unboundLocalError

/-! ## `read_parameters_txt` and `check_if_number` (C3, C4, C10)

The parameters file is modelled by its list of lines
(`stream.read().splitlines()`).  Scalar values are `PScalar`: Python ints
are `Int`; a value for which `float()` succeeds is `PScalar.float lit`,
carrying the accepted literal (the numeric value of the float is not
itself modelled); anything else stays a string.  The `OrderedDict` result
is an association list in insertion order: assignment to an existing key
updates it in place, assignment to a new key appends. -/

/-- A scalar value in the parameters dict, as produced by
`check_if_number`. -/
inductive PScalar : Type where
  | int (n : Int) : PScalar
  | float (lit : String) : PScalar
  | str (s : String) : PScalar
deriving DecidableEq, Repr

/-- A top-level value in the parameters dict: a scalar, or the nested
`OrderedDict` created for `PREFIX:NAME` keys. -/
inductive PEntryVal : Type where
  | scalar (v : PScalar) : PEntryVal
  | sub (d : List (String × PScalar)) : PEntryVal
deriving DecidableEq, Repr

/-- The `OrderedDict` returned by `read_parameters_txt`. -/
abbrev ParamDict := List (String × PEntryVal)

/-- `OrderedDict` lookup (`k in d` / `d[k]`). -/
def odGet {α : Type} : List (String × α) → String → Option α
  | [], _ => none
  | (k', v) :: rest, k => if k' = k then some v else odGet rest k

/-- `OrderedDict` assignment `d[k] = v`: update in place when the key
exists, append otherwise. -/
def odSet {α : Type} : List (String × α) → String → α → List (String × α)
  | [], k, v => [(k, v)]
  | (k', v') :: rest, k, v =>
    if k' = k then (k, v) :: rest else (k', v') :: odSet rest k v

/-- Trailing part of a digit group with single underscores between digits
(Python numeric-literal grammar for `int()`/`float()`). -/
def duRest : List Char → Bool
  | [] => true
  | c :: rest =>
    if c = '_' then
      match rest with
      | [] => false
      | d :: rest' => d.isDigit && duRest rest'
    else c.isDigit && duRest rest

/-- A non-empty digit group, underscores allowed singly between digits. -/
def digitsUnd : List Char → Bool
  | [] => false
  | c :: rest => c.isDigit && duRest rest

/-- Numeric value of a digit group, ignoring underscores. -/
def digitsVal (cs : List Char) : Nat :=
  cs.foldl (fun a c => if c = '_' then a else 10 * a + (c.toNat - 48)) 0

/-- Strip leading and trailing (ASCII-model) whitespace, as `int()` and
`float()` do before parsing. -/
def stripWS (cs : List Char) : List Char :=
  ((cs.dropWhile fun c => pyIsSpace c).reverse.dropWhile fun c => pyIsSpace c).reverse

/-- Python `int(s)` on a string: `some` of the value when it parses,
`none` when `int()` would raise `ValueError` (ASCII model). -/
def pyIntOpt (s : String) : Option Int :=
  let cs := stripWS s.data
  match cs with
  | '+' :: rest => if digitsUnd rest then some (Int.ofNat (digitsVal rest)) else none
  | '-' :: rest => if digitsUnd rest then some (-(Int.ofNat (digitsVal rest))) else none
  | _ => if digitsUnd cs then some (Int.ofNat (digitsVal cs)) else none

/-- Split at the first `'e'`/`'E'`, for the exponent part of a float
literal. -/
def splitAtExp : List Char → List Char × Option (List Char)
  | [] => ([], none)
  | c :: rest =>
    if c = 'e' || c = 'E' then ([], some rest)
    else
      match splitAtExp rest with
      | (m, e) => (c :: m, e)

/-- Split at the first `'.'`, for the mantissa of a float literal. -/
def splitAtDot : List Char → List Char × Option (List Char)
  | [] => ([], none)
  | c :: rest =>
    if c = '.' then ([], some rest)
    else
      match splitAtDot rest with
      | (m, e) => (c :: m, e)

/-- Mantissa check: `digits`, `digits.`, `.digits` or `digits.digits`,
with at least one digit and no second dot. -/
def mantissaOk (m : List Char) : Bool :=
  match splitAtDot m with
  | (l, none) => digitsUnd l
  | (l, some r) =>
    !(r.contains '.') &&
      (l.isEmpty || digitsUnd l) && (r.isEmpty || digitsUnd r) &&
      !(l.isEmpty && r.isEmpty)

/-- Exponent check: optional sign then a non-empty digit group. -/
def expOk (e : List Char) : Bool :=
  match e with
  | '+' :: r => digitsUnd r
  | '-' :: r => digitsUnd r
  | r => digitsUnd r

/-- Python `float(s)` acceptance on a string (ASCII model): optional sign,
then `inf`/`infinity`/`nan` (case-insensitive) or a mantissa with an
optional exponent. -/
def pyFloatOk (s : String) : Bool :=
  let cs := stripWS s.data
  let cs :=
    match cs with
    | '+' :: r => r
    | '-' :: r => r
    | r => r
  let lower := cs.map Char.toLower
  if lower = "inf".data || lower = "infinity".data || lower = "nan".data then true
  else
    match splitAtExp cs with
    | (m, none) => mantissaOk m
    | (m, some e) => mantissaOk m && expOk e

/-- `check_if_number` from `_utils.py`: try `int(value)`, then
`float(value)`, otherwise return the string unchanged. -/
def check_if_number (value : String) : PScalar :=
  match pyIntOpt value with
  | some n => PScalar.int n
  | none => if pyFloatOk value then PScalar.float value else PScalar.str value

/-- The body of the `for line in buffer` loop of `read_parameters_txt`,
applied to one (already colon-joined) line: split on `':'` and dispatch on
the field count.  Assigning under a prefix whose current value is not a
dict is Python's `TypeError` (`param[items[0]][items[1]] = ...` on an
`int`/`str`/`float`). -/
def paramStep (param : ParamDict) (line : String) : Except PyErr ParamDict :=
  match pySplitChar ':' line with
  | [k, v] => Except.ok (odSet param k (PEntryVal.scalar (check_if_number v)))
  | [p, n, v] =>
    match odGet param p with
    | none => Except.ok (odSet param p (PEntryVal.sub (odSet [] n (check_if_number v))))
    | some (PEntryVal.sub d) =>
      Except.ok (odSet param p (PEntryVal.sub (odSet d n (check_if_number v))))
    | some (PEntryVal.scalar _) => Except.error PyErr.typeError
  | _ => Except.error PyErr.runtimeError

/-- The `for` loop of `read_parameters_txt` over the joined buffer. -/
def runLines : ParamDict → List String → Except PyErr ParamDict
  | param, [] => Except.ok param
  | param, line :: rest =>
    match paramStep param line with
    | Except.ok param' => runLines param' rest
    | Except.error e => Except.error e

/-- `read_parameters_txt` from `_utils.py`, on the file's list of lines:
re-join each line's whitespace-separated tokens with `':'`, then parse
every joined line into the ordered dict. -/
def read_parameters_txt (lines : List String) : Except PyErr ParamDict :=
  runLines [] (lines.map fun line => pyJoinChar ':' (pySplitWS line))

/-- A string with no `':'` character, i.e. one field under `split(":")`. -/
def colonFree (s : String) : Prop := ∀ c ∈ s.data, c ≠ ':'

instance (s : String) : Decidable (colonFree s) := by
  unfold colonFree; infer_instance

theorem splitOnCharAux_ne_nil (sep : Char) (l : List Char) :
    splitOnCharAux sep l ≠ [] := by
  induction l with
  | nil => simp [splitOnCharAux]
  | cons c rest ih =>
    unfold splitOnCharAux
    match h : splitOnCharAux sep rest with
    | [] => simp
    | g :: gs => split_ifs <;> simp

theorem splitOnCharAux_sepFree_append (sep : Char) (xs rest : List Char)
    (h : ∀ c ∈ xs, c ≠ sep) :
    splitOnCharAux sep (xs ++ rest) =
      match splitOnCharAux sep rest with
      | [] => [xs]
      | g :: gs => (xs ++ g) :: gs := by
  induction xs with
  | nil =>
    match h' : splitOnCharAux sep rest with
    | [] => exact absurd h' (splitOnCharAux_ne_nil sep rest)
    | g :: gs => simp [h']
  | cons c xs' ih =>
    have hc : c ≠ sep := h c (by simp)
    have ih' := ih (fun c' hc' => h c' (by simp [hc']))
    match h' : splitOnCharAux sep rest with
    | [] => exact absurd h' (splitOnCharAux_ne_nil sep rest)
    | g :: gs =>
      rw [h'] at ih'
      show splitOnCharAux sep (c :: (xs' ++ rest)) = _
      unfold splitOnCharAux
      rw [ih']
      simp [hc]

theorem splitOnCharAux_sep_cons (sep : Char) (rest : List Char) :
    splitOnCharAux sep (sep :: rest) = [] :: splitOnCharAux sep rest := by
  match h : splitOnCharAux sep rest with
  | [] => exact absurd h (splitOnCharAux_ne_nil sep rest)
  | g :: gs =>
    simp [splitOnCharAux, h]

/-- Splitting a colon-free string on `':'` gives the one field. -/
theorem pySplitChar_colonFree (t : String) (h : colonFree t) :
    pySplitChar ':' t = [t] := by
  unfold pySplitChar
  have := splitOnCharAux_sepFree_append ':' t.data [] h
  simp only [List.append_nil, splitOnCharAux] at this
  rw [this]
  cases t
  rfl

/-- Splitting after joining colon-free tokens with `':'` recovers exactly
the tokens. -/
theorem pySplitChar_pyJoinChar (parts : List String)
    (hne : parts ≠ []) (h : ∀ t ∈ parts, colonFree t) :
    pySplitChar ':' (pyJoinChar ':' parts) = parts := by
  induction parts with
  | nil => exact absurd rfl hne
  | cons t rest ih =>
    match rest with
    | [] => exact pySplitChar_colonFree t (h t (by simp))
    | u :: rest' =>
      have ht : colonFree t := h t (by simp)
      have ih' := ih (by simp) (fun x hx => h x (by simp [hx]))
      show pySplitChar ':' (t ++ String.mk [':'] ++ pyJoinChar ':' (u :: rest')) = _
      unfold pySplitChar
      have hdata : (t ++ String.mk [':'] ++ pyJoinChar ':' (u :: rest')).data
          = t.data ++ (':' :: (pyJoinChar ':' (u :: rest')).data) := by
        simp [String.data_append]
      rw [hdata, splitOnCharAux_sepFree_append ':' t.data _ ht,
        splitOnCharAux_sep_cons]
      simp only [List.append_nil, List.map]
      unfold pySplitChar at ih'
      rw [ih']

/-- `OrderedDict` assignment then lookup of the same key. -/
theorem odGet_odSet_self {α : Type} (d : List (String × α)) (k : String) (v : α) :
    odGet (odSet d k v) k = some v := by
  induction d with
  | nil => simp [odSet, odGet]
  | cons e rest ih =>
    obtain ⟨k', v'⟩ := e
    unfold odSet
    split_ifs with h
    · simp [odGet]
    · simp [odGet, h, ih]

/-- `OrderedDict` assignment leaves other keys unchanged. -/
theorem odGet_odSet_ne {α : Type} (d : List (String × α)) (k k' : String) (v : α)
    (h : k' ≠ k) : odGet (odSet d k v) k' = odGet d k' := by
  induction d with
  | nil => simp [odSet, odGet, Ne.symm h]
  | cons e rest ih =>
    obtain ⟨k₀, v₀⟩ := e
    unfold odSet
    split_ifs with h₀
    · subst h₀
      simp [odGet, Ne.symm h]
    · simp only [odGet, ih]

/-- C4: the grammar is whitespace-forgiving: two files whose corresponding
lines have identical whitespace-separated token sequences parse to equal
results (leading whitespace and the amount and kind of inter-column
spacing never matter). -/
theorem read_parameters_txt_whitespace_forgiving
    (lines₁ lines₂ : List String)
    (h : lines₁.map pySplitWS = lines₂.map pySplitWS) :
    read_parameters_txt lines₁ = read_parameters_txt lines₂ := by
  unfold read_parameters_txt
  have key : ∀ lines : List String,
      lines.map (fun line => pyJoinChar ':' (pySplitWS line))
        = (lines.map pySplitWS).map (pyJoinChar ':') := by
    intro lines
    rw [List.map_map]
    rfl
  rw [key, key, h]

/-- Witness for C4: a tab-and-space justified line and its plain variant
parse identically. -/
theorem read_parameters_txt_whitespace_forgiving_witness :
    (["   SENSNAME \t  rms_seed "].map pySplitWS
      = ["SENSNAME rms_seed"].map pySplitWS) ∧
    read_parameters_txt ["   SENSNAME \t  rms_seed "]
      = read_parameters_txt ["SENSNAME rms_seed"] :=
  ⟨rfl, read_parameters_txt_whitespace_forgiving
    ["   SENSNAME \t  rms_seed "] ["SENSNAME rms_seed"] rfl⟩

/-- The token-level shape of a parameters line with a key token and a
value token: either a plain key, or a `PREFIX:NAME` key with exactly one
colon. -/
inductive LineDesc : Type where
  | plain (k v : String) : LineDesc
  | pref (p n v : String) : LineDesc
deriving DecidableEq, Repr

/-- The whitespace-separated tokens of the described line. -/
def LineDesc.tokens : LineDesc → List String
  | LineDesc.plain k v => [k, v]
  | LineDesc.pref p n v => [p ++ ":" ++ n, v]

/-- Well-formedness of a description: its token pieces are colon-free, so
the key has zero (plain) or exactly one (pref) colon and the value none. -/
def LineDesc.wf : LineDesc → Prop
  | LineDesc.plain k v => colonFree k ∧ colonFree v
  | LineDesc.pref p n v => colonFree p ∧ colonFree n ∧ colonFree v

instance : (d : LineDesc) → Decidable d.wf
  | LineDesc.plain k v => inferInstanceAs (Decidable (colonFree k ∧ colonFree v))
  | LineDesc.pref p n v =>
    inferInstanceAs (Decidable (colonFree p ∧ colonFree n ∧ colonFree v))

/-- The plain keys of a described file, in order. -/
def plainKeys : List LineDesc → List String
  | [] => []
  | LineDesc.plain k _ :: rest => k :: plainKeys rest
  | LineDesc.pref _ _ _ :: rest => plainKeys rest

/-- The `PREFIX` keys of a described file, in order (with repetitions). -/
def prefKeys : List LineDesc → List String
  | [] => []
  | LineDesc.plain _ _ :: rest => prefKeys rest
  | LineDesc.pref p _ _ :: rest => p :: prefKeys rest

/-- The `(PREFIX, NAME)` pairs of a described file, in order. -/
def prefPairs : List LineDesc → List (String × String)
  | [] => []
  | LineDesc.plain _ _ :: rest => prefPairs rest
  | LineDesc.pref p n _ :: rest => (p, n) :: prefPairs rest

/-- The nested dict currently stored under `p`, or the fresh empty
`OrderedDict` the code creates when `p` is absent. -/
def subOf (param : ParamDict) (p : String) : List (String × PScalar) :=
  match odGet param p with
  | some (PEntryVal.sub d) => d
  | _ => []

/-- The dict produced by executing the described lines in order (the
effect of the parse loop on well-formed two-token lines). -/
def execDs : ParamDict → List LineDesc → ParamDict
  | param, [] => param
  | param, LineDesc.plain k v :: rest =>
    execDs (odSet param k (PEntryVal.scalar (check_if_number v))) rest
  | param, LineDesc.pref p n v :: rest =>
    execDs (odSet param p (PEntryVal.sub (odSet (subOf param p) n (check_if_number v)))) rest

theorem mem_plainKeys {ds : List LineDesc} {k v : String}
    (h : LineDesc.plain k v ∈ ds) : k ∈ plainKeys ds := by
  induction ds with
  | nil => cases h
  | cons d rest ih =>
    rcases List.mem_cons.mp h with h' | h'
    · subst h'
      simp [plainKeys]
    · cases d <;> simp [plainKeys, ih h']

theorem mem_prefKeys {ds : List LineDesc} {p n v : String}
    (h : LineDesc.pref p n v ∈ ds) : p ∈ prefKeys ds := by
  induction ds with
  | nil => cases h
  | cons d rest ih =>
    rcases List.mem_cons.mp h with h' | h'
    · subst h'
      simp [prefKeys]
    · cases d <;> simp [prefKeys, ih h']

theorem paramStep_plain (param : ParamDict) (k v : String)
    (hk : colonFree k) (hv : colonFree v) :
    paramStep param (pyJoinChar ':' [k, v]) =
      Except.ok (odSet param k (PEntryVal.scalar (check_if_number v))) := by
  unfold paramStep
  rw [pySplitChar_pyJoinChar [k, v] (by simp)
    (by intro t ht; simp at ht; rcases ht with rfl | rfl <;> assumption)]

theorem paramStep_pref (param : ParamDict) (p n v : String)
    (hp : colonFree p) (hn : colonFree n) (hv : colonFree v)
    (hscal : ∀ x, odGet param p = some x → ∃ d, x = PEntryVal.sub d) :
    paramStep param (pyJoinChar ':' [p ++ ":" ++ n, v]) =
      Except.ok (odSet param p
        (PEntryVal.sub (odSet (subOf param p) n (check_if_number v)))) := by
  have hjoin : pyJoinChar ':' [p ++ ":" ++ n, v] = pyJoinChar ':' [p, n, v] := by
    show p ++ ":" ++ n ++ String.mk [':'] ++ v
        = p ++ String.mk [':'] ++ (n ++ String.mk [':'] ++ v)
    rw [show String.mk [':'] = (":" : String) from rfl]
    simp [String.append_assoc]
  rw [hjoin]
  unfold paramStep
  rw [pySplitChar_pyJoinChar [p, n, v] (by simp)
    (by intro t ht; simp at ht; rcases ht with rfl | rfl | rfl <;> assumption)]
  match h2 : odGet param p with
  | none => simp [subOf, h2]
  | some (PEntryVal.sub d) => simp [subOf, h2]
  | some (PEntryVal.scalar s) =>
    obtain ⟨d, hd⟩ := hscal _ h2
    exact absurd hd (by simp)

/-- No `PREFIX` key of the remaining lines is currently bound to a
scalar — the invariant that keeps nested assignment from raising
`TypeError`. -/
def InvPref (param : ParamDict) (ds : List LineDesc) : Prop :=
  ∀ p n v, LineDesc.pref p n v ∈ ds → ∀ x, odGet param p = some x →
    ∃ d, x = PEntryVal.sub d

theorem runLines_execDs (ds : List LineDesc) (param : ParamDict)
    (hwf : ∀ d ∈ ds, d.wf)
    (hdisj : ∀ k ∈ plainKeys ds, k ∉ prefKeys ds)
    (hinv : InvPref param ds) :
    runLines param (ds.map fun d => pyJoinChar ':' d.tokens) =
      Except.ok (execDs param ds) := by
  induction ds generalizing param with
  | nil => rfl
  | cons d rest ih =>
    cases d with
    | plain k v =>
      obtain ⟨hk, hv⟩ := hwf _ (List.mem_cons_self _ _)
      have hstep := paramStep_plain param k v hk hv
      simp only [List.map_cons, LineDesc.tokens, runLines, hstep, execDs]
      refine ih (odSet param k (PEntryVal.scalar (check_if_number v)))
        (fun d' hd' => hwf d' (List.mem_cons_of_mem _ hd')) ?_ ?_
      · intro k' hk'
        exact hdisj k' (by simp [plainKeys, hk'])
      · intro p n' v' hm x hx
        have hpk : p ∈ prefKeys (LineDesc.plain k v :: rest) := by
          simp [prefKeys, mem_prefKeys hm]
        have hkp : k ≠ p := by
          intro hkp
          exact hdisj k (by simp [plainKeys]) (hkp ▸ hpk)
        rw [odGet_odSet_ne param k p _ (Ne.symm hkp)] at hx
        exact hinv p n' v' (List.mem_cons_of_mem _ hm) x hx
    | pref p n v =>
      obtain ⟨hp, hn, hv⟩ := hwf _ (List.mem_cons_self _ _)
      have hscal : ∀ x, odGet param p = some x → ∃ d, x = PEntryVal.sub d :=
        hinv p n v (List.mem_cons_self _ _)
      have hstep := paramStep_pref param p n v hp hn hv hscal
      simp only [List.map_cons, LineDesc.tokens, runLines, hstep, execDs]
      refine ih _ (fun d' hd' => hwf d' (List.mem_cons_of_mem _ hd')) ?_ ?_
      · intro k' hk'
        have := hdisj k' (by simp [plainKeys, hk'])
        simp only [prefKeys] at this
        exact fun hc => this (List.mem_cons_of_mem _ hc)
      · intro p' n' v' hm x hx
        by_cases hpp : p' = p
        · subst hpp
          rw [odGet_odSet_self] at hx
          exact ⟨_, (Option.some.inj hx).symm⟩
        · rw [odGet_odSet_ne param p p' _ hpp] at hx
          exact hinv p' n' v' (List.mem_cons_of_mem _ hm) x hx

theorem execDs_odGet_untouched (ds : List LineDesc) (param : ParamDict) (k : String)
    (h1 : k ∉ plainKeys ds) (h2 : k ∉ prefKeys ds) :
    odGet (execDs param ds) k = odGet param k := by
  induction ds generalizing param with
  | nil => rfl
  | cons d rest ih =>
    cases d with
    | plain k' v =>
      have hk' : k ≠ k' := by
        intro h
        exact h1 (by simp [plainKeys, h])
      simp only [execDs]
      rw [ih _ (fun hc => h1 (by simp [plainKeys, hc])) (by simpa [prefKeys] using h2),
        odGet_odSet_ne param k' k _ hk']
    | pref p n v =>
      have hp : k ≠ p := by
        intro h
        exact h2 (by simp [prefKeys, h])
      simp only [execDs]
      rw [ih _ (by simpa [plainKeys] using h1)
          (fun hc => h2 (by simp [prefKeys, hc])),
        odGet_odSet_ne param p k _ hp]

theorem execDs_plain_lookup (ds : List LineDesc) (param : ParamDict) (k v : String)
    (hmem : LineDesc.plain k v ∈ ds)
    (hnodup : (plainKeys ds).Nodup)
    (hdisj : k ∉ prefKeys ds) :
    odGet (execDs param ds) k = some (PEntryVal.scalar (check_if_number v)) := by
  induction ds generalizing param with
  | nil => cases hmem
  | cons d rest ih =>
    rcases List.mem_cons.mp hmem with h' | h'
    · subst h'
      simp only [execDs]
      rw [execDs_odGet_untouched rest _ k
          (by simpa [plainKeys] using (List.nodup_cons.mp (by simpa [plainKeys] using hnodup)).1)
          (by simpa [prefKeys] using hdisj),
        odGet_odSet_self]
    · cases d with
      | plain k' v' =>
        simp only [execDs]
        exact ih _ h' (by simpa [plainKeys] using (List.nodup_cons.mp
          (by simpa [plainKeys] using hnodup)).2) (by simpa [prefKeys] using hdisj)
      | pref p n v' =>
        simp only [execDs]
        exact ih _ h' (by simpa [plainKeys] using hnodup)
          (fun hc => hdisj (by simp [prefKeys, hc]))

theorem execDs_pref_preserved (ds : List LineDesc) (param : ParamDict)
    (p n : String) (x : PScalar)
    (hplain : p ∉ plainKeys ds)
    (hpair : (p, n) ∉ prefPairs ds)
    (hcur : ∃ d, odGet param p = some (PEntryVal.sub d) ∧ odGet d n = some x) :
    ∃ d', odGet (execDs param ds) p = some (PEntryVal.sub d') ∧
      odGet d' n = some x := by
  induction ds generalizing param with
  | nil => exact hcur
  | cons d rest ih =>
    cases d with
    | plain k v =>
      have hk : k ≠ p := by
        intro h
        exact hplain (by simp [plainKeys, h])
      simp only [execDs]
      refine ih _ (fun hc => hplain (by simp [plainKeys, hc]))
        (fun hc => hpair (by simp [prefPairs, hc])) ?_
      obtain ⟨d₀, hd₀, hdn⟩ := hcur
      exact ⟨d₀, by rw [odGet_odSet_ne param k p _ (Ne.symm hk)]; exact hd₀, hdn⟩
    | pref p' n' v =>
      by_cases hpp : p' = p
      · subst hpp
        obtain ⟨d₀, hd₀, hdn⟩ := hcur
        have hnn : n' ≠ n := by
          intro h
          exact hpair (by simp [prefPairs, h])
        simp only [execDs]
        refine ih _ (fun hc => hplain (by simp [plainKeys, hc]))
          (fun hc => hpair (by simp [prefPairs, hc])) ?_
        refine ⟨odSet (subOf param p') n' (check_if_number v), odGet_odSet_self _ _ _, ?_⟩
        rw [odGet_odSet_ne _ n' n _ (Ne.symm hnn)]
        rw [show subOf param p' = d₀ from by simp [subOf, hd₀]]
        exact hdn
      · simp only [execDs]
        refine ih _ (fun hc => hplain (by simp [plainKeys, hc]))
          (fun hc => hpair (by simp [prefPairs, hc])) ?_
        obtain ⟨d₀, hd₀, hdn⟩ := hcur
        exact ⟨d₀, by rw [odGet_odSet_ne param p' p _ (Ne.symm hpp)]; exact hd₀, hdn⟩

theorem execDs_pref_lookup (ds : List LineDesc) (param : ParamDict)
    (p n v : String)
    (hmem : LineDesc.pref p n v ∈ ds)
    (hplain : p ∉ plainKeys ds)
    (hpairs : (prefPairs ds).Nodup) :
    ∃ d, odGet (execDs param ds) p = some (PEntryVal.sub d) ∧
      odGet d n = some (check_if_number v) := by
  induction ds generalizing param with
  | nil => cases hmem
  | cons d rest ih =>
    rcases List.mem_cons.mp hmem with h' | h'
    · subst h'
      simp only [execDs]
      refine execDs_pref_preserved rest _ p n (check_if_number v)
        (by simpa [plainKeys] using hplain)
        (by simpa [prefPairs] using (List.nodup_cons.mp
          (by simpa [prefPairs] using hpairs)).1) ?_
      exact ⟨odSet (subOf param p) n (check_if_number v),
        odGet_odSet_self _ _ _, odGet_odSet_self _ _ _⟩
    · cases d with
      | plain k v' =>
        simp only [execDs]
        exact ih _ h' (fun hc => hplain (by simp [plainKeys, hc]))
          (by simpa [prefPairs] using hpairs)
      | pref p' n' v' =>
        simp only [execDs]
        exact ih _ h' (fun hc => hplain (by simp [plainKeys, hc]))
          (by simpa [prefPairs] using (List.nodup_cons.mp
            (by simpa [prefPairs] using hpairs)).2)

/-- C3 (amended): for a parameters file whose every line is a key token
followed by a value token, with colon-free value tokens, keys with at most
one colon, plain keys distinct from each other and from the `PREFIX` keys,
and distinct `(PREFIX, NAME)` pairs, `read_parameters_txt` returns an
ordered dict in which a colon-free key maps directly to its converted
value and a `PREFIX:NAME` key produces `result[PREFIX][NAME] = value`;
values convert to int when Python `int()` accepts them, else to float when
Python `float()` accepts them, and otherwise stay the unchanged string. -/
theorem read_parameters_txt_two_token_grammar
    (lines : List String) (ds : List LineDesc)
    (htok : lines.map pySplitWS = ds.map LineDesc.tokens)
    (hwf : ∀ d ∈ ds, d.wf)
    (hnodup : (plainKeys ds).Nodup)
    (hdisj : ∀ k ∈ plainKeys ds, k ∉ prefKeys ds)
    (hpairs : (prefPairs ds).Nodup) :
    (∃ final : ParamDict,
      read_parameters_txt lines = Except.ok final ∧
      (∀ k v, LineDesc.plain k v ∈ ds →
        odGet final k = some (PEntryVal.scalar (check_if_number v))) ∧
      (∀ p n v, LineDesc.pref p n v ∈ ds →
        ∃ d, odGet final p = some (PEntryVal.sub d) ∧
          odGet d n = some (check_if_number v))) ∧
    (∀ w : String, ∀ m : Int, pyIntOpt w = some m → check_if_number w = PScalar.int m) ∧
    (∀ w : String, pyIntOpt w = none → pyFloatOk w = true →
      check_if_number w = PScalar.float w) ∧
    (∀ w : String, pyIntOpt w = none → pyFloatOk w = false →
      check_if_number w = PScalar.str w) := by
  refine ⟨⟨execDs [] ds, ?_, ?_, ?_⟩, ?_, ?_, ?_⟩
  · unfold read_parameters_txt
    have hjoin : lines.map (fun line => pyJoinChar ':' (pySplitWS line))
        = ds.map (fun d => pyJoinChar ':' d.tokens) := by
      have k₁ : lines.map (fun line => pyJoinChar ':' (pySplitWS line))
          = (lines.map pySplitWS).map (pyJoinChar ':') := by
        rw [List.map_map]
        rfl
      have k₂ : ds.map (fun d => pyJoinChar ':' d.tokens)
          = (ds.map LineDesc.tokens).map (pyJoinChar ':') := by
        rw [List.map_map]
        rfl
      rw [k₁, k₂, htok]
    rw [hjoin]
    exact runLines_execDs ds [] hwf hdisj
      (fun p n v _ x hx => by simp [odGet] at hx)
  · intro k v hm
    exact execDs_plain_lookup ds [] k v hm hnodup (hdisj k (mem_plainKeys hm))
  · intro p n v hm
    refine execDs_pref_lookup ds [] p n v hm ?_ hpairs
    intro hc
    exact hdisj p hc (mem_prefKeys hm)
  · intro w m h
    unfold check_if_number
    rw [h]
  · intro w h hf
    unfold check_if_number
    rw [h, if_pos hf]
  · intro w h hf
    unfold check_if_number
    rw [h, if_neg (by simp [hf])]

/-- Witness for C3 (amended) on a concrete two-line file with a plain key
and a `PREFIX:NAME` key. -/
theorem read_parameters_txt_two_token_grammar_witness :
    (["SENSNAME  rms_seed", "  GLOBVAR:VOLON_PORO \t 0.2"].map pySplitWS
      = [LineDesc.plain "SENSNAME" "rms_seed",
         LineDesc.pref "GLOBVAR" "VOLON_PORO" "0.2"].map LineDesc.tokens) ∧
    (∃ final : ParamDict,
      read_parameters_txt ["SENSNAME  rms_seed", "  GLOBVAR:VOLON_PORO \t 0.2"]
        = Except.ok final ∧
      (∀ k v, LineDesc.plain k v ∈
          [LineDesc.plain "SENSNAME" "rms_seed",
           LineDesc.pref "GLOBVAR" "VOLON_PORO" "0.2"] →
        odGet final k = some (PEntryVal.scalar (check_if_number v))) ∧
      (∀ p n v, LineDesc.pref p n v ∈
          [LineDesc.plain "SENSNAME" "rms_seed",
           LineDesc.pref "GLOBVAR" "VOLON_PORO" "0.2"] →
        ∃ d, odGet final p = some (PEntryVal.sub d) ∧
          odGet d n = some (check_if_number v))) :=
  ⟨by decide,
   (read_parameters_txt_two_token_grammar
     ["SENSNAME  rms_seed", "  GLOBVAR:VOLON_PORO \t 0.2"]
     [LineDesc.plain "SENSNAME" "rms_seed",
      LineDesc.pref "GLOBVAR" "VOLON_PORO" "0.2"]
     (by decide) (by decide) (by decide) (by decide) (by decide)).1⟩

/-- C10 (amended): processing an input line raises `RuntimeError` exactly
when its whitespace-separated tokens, joined with `':'`, split on `':'`
into fewer than 2 or more than 3 fields; in particular a blank or
whitespace-only line and a line with a single colon-free token raise
`RuntimeError`, while a line of three whitespace-separated tokens
`"A B C"` is silently accepted as the nested entry
`result["A"]["B"] = "C"`. -/
theorem read_parameters_txt_runtimeError_iff (param : ParamDict) (line : String) :
    (paramStep param (pyJoinChar ':' (pySplitWS line)) = Except.error PyErr.runtimeError ↔
      ((pySplitChar ':' (pyJoinChar ':' (pySplitWS line))).length < 2 ∨
        3 < (pySplitChar ':' (pyJoinChar ':' (pySplitWS line))).length)) ∧
    (pySplitWS line = [] →
      paramStep param (pyJoinChar ':' (pySplitWS line)) = Except.error PyErr.runtimeError) ∧
    (∀ t, pySplitWS line = [t] → colonFree t →
      paramStep param (pyJoinChar ':' (pySplitWS line)) = Except.error PyErr.runtimeError) ∧
    read_parameters_txt ["A B C"] =
      Except.ok [("A", PEntryVal.sub [("B", PScalar.str "C")])] := by
  refine ⟨?_, ?_, ?_, rfl⟩
  · unfold paramStep
    match h : pySplitChar ':' (pyJoinChar ':' (pySplitWS line)) with
    | [] => simp
    | [a] => simp
    | [a, b] => simp
    | [a, b, c] =>
      match h2 : odGet param a with
      | none => simp [h2]
      | some (PEntryVal.sub d) => simp [h2]
      | some (PEntryVal.scalar v) => simp [h2]
    | a :: b :: c :: d :: rest => simp [Nat.lt_add_of_pos_right]
  · intro h
    rw [h]
    rfl
  · intro t ht hcf
    rw [ht]
    show paramStep param t = Except.error PyErr.runtimeError
    unfold paramStep
    rw [pySplitChar_colonFree t hcf]

/-- Witness for C10 at a whitespace-only line and a single colon-free
token line. -/
theorem read_parameters_txt_runtimeError_iff_witness :
    paramStep [] (pyJoinChar ':' (pySplitWS " \t ")) = Except.error PyErr.runtimeError ∧
    paramStep [] (pyJoinChar ':' (pySplitWS "ONLYKEY")) = Except.error PyErr.runtimeError :=
  ⟨(read_parameters_txt_runtimeError_iff [] " \t ").2.1 rfl,
   (read_parameters_txt_runtimeError_iff [] "ONLYKEY").2.2.1 "ONLYKEY" rfl
     (by decide)⟩

/-- Counterexample to C10 as stated: a line with a single token does not
always raise `RuntimeError` — the single token `"A:B"` is accepted as the
plain entry `{"A": "B"}`. -/
theorem read_parameters_txt_single_token_no_error :
    pySplitWS "A:B" = ["A:B"] ∧
    read_parameters_txt ["A:B"] =
      Except.ok [("A", PEntryVal.scalar (PScalar.str "B"))] :=
  ⟨rfl, rfl⟩

/-- Counterexample to C3 as stated: in the line `"A B:C"` the key token
`"A"` has no colon, yet it does not map directly to its value token
`"B:C"` — re-joining the tokens with `':'` makes the parser read the line
as the nested entry `{"A": {"B": "C"}}`. -/
theorem read_parameters_txt_colon_value_counterexample :
    pySplitWS "A B:C" = ["A", "B:C"] ∧
    read_parameters_txt ["A B:C"] =
      Except.ok [("A", PEntryVal.sub [("B", PScalar.str "C")])] ∧
    read_parameters_txt ["A B:C"] ≠
      Except.ok [("A", PEntryVal.scalar (PScalar.str "B:C"))] := by
  refine ⟨rfl, rfl, ?_⟩
  intro h
  rw [show read_parameters_txt ["A B:C"] =
      Except.ok [("A", PEntryVal.sub [("B", PScalar.str "C")])] from rfl] at h
  injection h with h'
  exact absurd h' (by decide)

/-! ## MD5, `md5sum` and `uuid_from_string` (C6, C7)

The MD5 algorithm itself (RFC 1321) is implemented over byte lists, with
32-bit words as `Nat`s reduced modulo `2^32`.  A file is modelled by its
byte contents; `hashlib.md5()`'s incremental context is modelled by the
bytes fed to it so far (hashlib guarantees that `update(a); update(b)` is
equivalent to `update(a+b)`), and `hexdigest()` runs MD5 on them. -/

/-- Reduce modulo `2^32`. -/
def u32 (n : Nat) : Nat := n % 4294967296

/-- 32-bit left rotation (for `x < 2^32`, `0 < s < 32`). -/
def rotl32 (x s : Nat) : Nat := (x <<< s) % 4294967296 + (x >>> (32 - s))

/-- 32-bit bitwise complement (for `x < 2^32`). -/
def not32 (x : Nat) : Nat := 4294967295 - x

/-- The 64 MD5 round constants `floor(abs(sin(i+1)) * 2^32)`. -/
def md5K : List Nat :=
  [3614090360, 3905402710, 606105819, 3250441966, 4118548399, 1200080426,
   2821735955, 4249261313, 1770035416, 2336552879, 4294925233, 2304563134,
   1804603682, 4254626195, 2792965006, 1236535329, 4129170786, 3225465664,
   643717713, 3921069994, 3593408605, 38016083, 3634488961, 3889429448,
   568446438, 3275163606, 4107603335, 1163531501, 2850285829, 4243563512,
   1735328473, 2368359562, 4294588738, 2272392833, 1839030562, 4259657740,
   2763975236, 1272893353, 4139469664, 3200236656, 681279174, 3936430074,
   3572445317, 76029189, 3654602809, 3873151461, 530742520, 3299628645,
   4096336452, 1126891415, 2878612391, 4237533241, 1700485571, 2399980690,
   4293915773, 2240044497, 1873313359, 4264355552, 2734768916, 1309151649,
   4149444226, 3174756917, 718787259, 3951481745]

/-- The 64 MD5 per-round shift amounts. -/
def md5S : List Nat :=
  [7, 12, 17, 22, 7, 12, 17, 22, 7, 12, 17, 22, 7, 12, 17, 22,
   5, 9, 14, 20, 5, 9, 14, 20, 5, 9, 14, 20, 5, 9, 14, 20,
   4, 11, 16, 23, 4, 11, 16, 23, 4, 11, 16, 23, 4, 11, 16, 23,
   6, 10, 15, 21, 6, 10, 15, 21, 6, 10, 15, 21, 6, 10, 15, 21]

/-- The MD5 round function for round `i`. -/
def md5F (i b c d : Nat) : Nat :=
  if i < 16 then (b &&& c) ||| (not32 b &&& d)
  else if i < 32 then (d &&& b) ||| (not32 d &&& c)
  else if i < 48 then b ^^^ c ^^^ d
  else c ^^^ (b ||| not32 d)

/-- The message-word index used in round `i`. -/
def md5G (i : Nat) : Nat :=
  if i < 16 then i
  else if i < 32 then (5 * i + 1) % 16
  else if i < 48 then (3 * i + 5) % 16
  else (7 * i) % 16

/-- Little-endian 32-bit word `j` of a 64-byte block. -/
def wordLE (block : List Nat) (j : Nat) : Nat :=
  block.getD (4 * j) 0 + 256 * block.getD (4 * j + 1) 0 +
    65536 * block.getD (4 * j + 2) 0 + 16777216 * block.getD (4 * j + 3) 0

/-- One MD5 round on the state `(a, b, c, d)`. -/
def md5Step (block : List Nat) (st : Nat × Nat × Nat × Nat) (i : Nat) :
    Nat × Nat × Nat × Nat :=
  match st with
  | (a, b, c, d) =>
    let f := u32 (md5F i b c d + a + md5K.getD i 0 + wordLE block (md5G i))
    (d, u32 (b + rotl32 f (md5S.getD i 0)), b, c)

/-- The MD5 compression function: 64 rounds on a block, then add the
input state back in. -/
def md5Compress (st : Nat × Nat × Nat × Nat) (block : List Nat) :
    Nat × Nat × Nat × Nat :=
  match (List.range 64).foldl (md5Step block) st, st with
  | (a', b', c', d'), (a, b, c, d) =>
    (u32 (a + a'), u32 (b + b'), u32 (c + c'), u32 (d + d'))

/-- Split into chunks of `n` elements (last chunk short), with explicit
fuel so that the definition is structurally recursive. -/
def chunksOfAux {α : Type} (n : Nat) : Nat → List α → List (List α)
  | 0, _ => []
  | fuel + 1, xs =>
    if xs.isEmpty then [] else xs.take n :: chunksOfAux n fuel (xs.drop n)

/-- Split a list into chunks of `n` elements; models both the
`fil.read(4096)` loop and MD5's 64-byte blocks. -/
def chunksOf {α : Type} (n : Nat) (xs : List α) : List (List α) :=
  chunksOfAux n xs.length xs

/-- The 8-byte little-endian encoding of the message bit length. -/
def lenBytesLE (len : Nat) : List Nat :=
  (List.range 8).map fun i => (8 * len) % 18446744073709551616 / 256 ^ i % 256

/-- MD5 padding: append `0x80`, zero bytes to 56 mod 64, then the 64-bit
little-endian bit length. -/
def md5Pad (msg : List Nat) : List Nat :=
  msg ++ [128] ++ List.replicate ((119 - msg.length % 64) % 64) 0 ++
    lenBytesLE msg.length

/-- The MD5 initial state. -/
def md5Init : Nat × Nat × Nat × Nat :=
  (1732584193, 4023233417, 2562383102, 271733878)

/-- The 4 little-endian bytes of a 32-bit word. -/
def wordBytesLE (w : Nat) : List Nat :=
  [w % 256, w / 256 % 256, w / 65536 % 256, w / 16777216 % 256]

/-- The 16 digest bytes of the MD5 of a byte list. -/
def md5Digest (msg : List Nat) : List Nat :=
  match (chunksOf 64 (md5Pad msg)).foldl md5Compress md5Init with
  | (a, b, c, d) => wordBytesLE a ++ wordBytesLE b ++ wordBytesLE c ++ wordBytesLE d

/-- The sixteen lowercase hex digits. -/
def hexDigits : List Char := "0123456789abcdef".data

/-- The two lowercase hex characters of a byte. -/
def byteHex (b : Nat) : List Char :=
  [hexDigits.getD (b / 16) '0', hexDigits.getD (b % 16) '0']

/-- `hashlib.md5(msg).hexdigest()` in one step: the reference definition
computing the MD5 of the entire byte contents at once. -/
def md5Hex (msg : List Nat) : String :=
  String.mk ((md5Digest msg).flatMap byteHex)

/-- The incrementally updated `hashlib.md5()` context, modelled by the
bytes fed so far. -/
def Md5Ctx : Type := List Nat

/-- A fresh `hashlib.md5()`. -/
def Md5Ctx.init : Md5Ctx := []

/-- `hash_md5.update(chunk)`. -/
def Md5Ctx.update (ctx : Md5Ctx) (chunk : List Nat) : Md5Ctx :=
  List.append ctx chunk

/-- `hash_md5.hexdigest()`. -/
def Md5Ctx.hexdigest (ctx : Md5Ctx) : String := md5Hex ctx

/-- `md5sum` from `_utils.py`: read the file (modelled by its byte
contents) in 4096-byte chunks, feed each chunk to the incrementally
updated MD5 context, and return the hex digest. -/
def md5sum (content : List Nat) : String :=
  ((chunksOf 4096 content).foldl Md5Ctx.update Md5Ctx.init).hexdigest

/-- The UTF-8 encoding of one character (code point). -/
def charUtf8 (c : Char) : List Nat :=
  let n := c.toNat
  if n < 128 then [n]
  else if n < 2048 then [192 + n / 64, 128 + n % 64]
  else if n < 65536 then [224 + n / 4096, 128 + n / 64 % 64, 128 + n % 64]
  else [240 + n / 262144, 128 + n / 4096 % 64, 128 + n / 64 % 64, 128 + n % 64]

/-- Python `string.encode("utf-8")`. -/
def utf8Encode (s : String) : List Nat :=
  s.data.flatMap charUtf8

/-- The value of a lowercase hex digit. -/
def hexVal (c : Char) : Nat :=
  if c.isDigit then c.toNat - 48 else c.toNat - 87

/-- The integer value of a hex string (most significant digit first). -/
def hexToNat (s : String) : Nat :=
  s.data.foldl (fun a c => 16 * a + hexVal c) 0

/-- `uuid.UUID(hex)` on a 32-hex-digit string, modelled by the UUID's
128-bit integer value. -/
def pyUUID (hex : String) : Nat := hexToNat hex

/-- `uuid_from_string` from `_utils.py`: the UUID built from the hex MD5
digest of the UTF-8 encoded string. -/
def uuid_from_string (s : String) : Nat :=
  pyUUID (md5Hex (utf8Encode s))

theorem foldl_update_eq_flatten (chunks : List (List Nat)) (acc : Md5Ctx) :
    chunks.foldl Md5Ctx.update acc = List.append acc chunks.flatten := by
  induction chunks generalizing acc with
  | nil => simp [Md5Ctx.update]
  | cons c rest ih =>
    show List.foldl Md5Ctx.update (Md5Ctx.update acc c) rest = _
    rw [ih]
    simp [Md5Ctx.update, List.append_assoc]

theorem chunksOfAux_flatten {α : Type} (n : Nat) (hn : 0 < n) :
    ∀ (fuel : Nat) (xs : List α), xs.length ≤ fuel →
      (chunksOfAux n fuel xs).flatten = xs := by
  intro fuel
  induction fuel with
  | zero =>
    intro xs h
    rw [List.length_eq_zero.mp (Nat.le_zero.mp h)]
    rfl
  | succ fuel ih =>
    intro xs h
    unfold chunksOfAux
    match xs with
    | [] => rfl
    | x :: rest =>
      have hlen : ((x :: rest).drop n).length ≤ fuel := by
        rw [List.length_drop]
        simp only [List.length_cons]
        simp only [List.length_cons] at h
        omega
      rw [if_neg (by simp), List.flatten_cons, ih _ hlen, List.take_append_drop]

theorem chunksOf_flatten {α : Type} (n : Nat) (hn : 0 < n) (xs : List α) :
    (chunksOf n xs).flatten = xs :=
  chunksOfAux_flatten n hn xs.length xs (Nat.le_refl _)

/-- C6: `md5sum`, which reads the file in 4096-byte chunks and feeds each
chunk to the incrementally updated MD5 context, returns exactly the digest
of the reference definition `md5Hex` that hashes the entire contents in
one step; more generally, the result is the same for every way of
splitting the contents into chunks. -/
theorem md5sum_refines_one_shot_md5 (content : List Nat) :
    md5sum content = md5Hex content ∧
    (∀ chunks : List (List Nat), chunks.flatten = content →
      (chunks.foldl Md5Ctx.update Md5Ctx.init).hexdigest = md5Hex content) := by
  constructor
  · unfold md5sum Md5Ctx.hexdigest
    rw [foldl_update_eq_flatten, chunksOf_flatten 4096 (by decide) content]
    rfl
  · intro chunks h
    unfold Md5Ctx.hexdigest
    rw [foldl_update_eq_flatten, h]
    rfl

/-- Witness for C6: an uneven concrete chunking of a 5-byte file gives the
one-shot digest. -/
theorem md5sum_refines_one_shot_md5_witness :
    ([[0, 1], [2, 3, 4]] : List (List Nat)).flatten = [0, 1, 2, 3, 4] ∧
    (([[0, 1], [2, 3, 4]] : List (List Nat)).foldl
        Md5Ctx.update Md5Ctx.init).hexdigest = md5Hex [0, 1, 2, 3, 4] :=
  ⟨rfl, (md5sum_refines_one_shot_md5 [0, 1, 2, 3, 4]).2 [[0, 1], [2, 3, 4]] rfl⟩

theorem getD_hexDigits_mem (i : Nat) : hexDigits.getD i '0' ∈ hexDigits := by
  by_cases h : i < 16
  · interval_cases i <;> decide
  · rw [List.getD_eq_default]
    · decide
    · rw [show hexDigits.length = 16 from rfl]
      exact Nat.le_of_not_lt h

theorem byteHex_mem (b : Nat) : ∀ c ∈ byteHex b, c ∈ hexDigits := by
  intro c hc
  rcases hc with _ | ⟨_, hc⟩
  · exact getD_hexDigits_mem (b / 16)
  · rcases hc with _ | ⟨_, hc⟩
    · exact getD_hexDigits_mem (b % 16)
    · cases hc

theorem md5Hex_mem_hexDigits (msg : List Nat) :
    ∀ c ∈ (md5Hex msg).data, c ∈ hexDigits := by
  intro c hc
  have hc' : c ∈ (md5Digest msg).flatMap byteHex := hc
  obtain ⟨b, _, hcb⟩ := List.mem_flatMap.mp hc'
  exact byteHex_mem b c hcb

theorem md5Digest_length (msg : List Nat) : (md5Digest msg).length = 16 := by
  rcases h : (chunksOf 64 (md5Pad msg)).foldl md5Compress md5Init with ⟨a, b, c, d⟩
  unfold md5Digest
  rw [h]
  rfl

theorem md5Hex_data_length (msg : List Nat) : (md5Hex msg).data.length = 32 := by
  show ((md5Digest msg).flatMap byteHex).length = 32
  rw [List.length_flatMap]
  rw [show (List.length ∘ byteHex) = (fun _ : Nat => 2) from funext fun b => rfl]
  rw [List.map_const', List.sum_replicate, md5Digest_length]
  rfl

theorem hexVal_lt_of_mem : ∀ c ∈ hexDigits, hexVal c < 16 := by decide

theorem hexVal_inj_on :
    ∀ c₁ ∈ hexDigits, ∀ c₂ ∈ hexDigits, hexVal c₁ = hexVal c₂ → c₁ = c₂ := by
  decide

theorem hexFold_split (cs : List Char) : ∀ acc : Nat,
    cs.foldl (fun a c => 16 * a + hexVal c) acc
      = acc * 16 ^ cs.length + cs.foldl (fun a c => 16 * a + hexVal c) 0 := by
  induction cs with
  | nil => intro acc; simp
  | cons c t ih =>
    intro acc
    show t.foldl _ (16 * acc + hexVal c)
        = acc * 16 ^ (t.length + 1) + t.foldl _ (16 * 0 + hexVal c)
    rw [ih (16 * acc + hexVal c), ih (16 * 0 + hexVal c)]
    ring

theorem hexFold_lt (cs : List Char) (h : ∀ c ∈ cs, hexVal c < 16) :
    cs.foldl (fun a c => 16 * a + hexVal c) 0 < 16 ^ cs.length := by
  induction cs with
  | nil => simp
  | cons c t ih =>
    show t.foldl _ (16 * 0 + hexVal c) < 16 ^ (t.length + 1)
    rw [hexFold_split t (16 * 0 + hexVal c)]
    have h1 : hexVal c < 16 := h c (by simp)
    have h2 := ih (fun x hx => h x (by simp [hx]))
    have hp : 0 < 16 ^ t.length := pow_pos (by decide) _
    calc (16 * 0 + hexVal c) * 16 ^ t.length + t.foldl (fun a c => 16 * a + hexVal c) 0
        < (hexVal c + 1) * 16 ^ t.length := by
          rw [show (16 * 0 + hexVal c) = hexVal c from by ring, Nat.add_mul, Nat.one_mul]
          exact Nat.add_lt_add_left h2 _
      _ ≤ 16 * 16 ^ t.length := Nat.mul_le_mul_right _ h1
      _ = 16 ^ (t.length + 1) := by rw [pow_succ]; ring

theorem hexFold_inj : ∀ cs₁ cs₂ : List Char, cs₁.length = cs₂.length →
    (∀ c ∈ cs₁, c ∈ hexDigits) → (∀ c ∈ cs₂, c ∈ hexDigits) →
    cs₁.foldl (fun a c => 16 * a + hexVal c) 0
      = cs₂.foldl (fun a c => 16 * a + hexVal c) 0 →
    cs₁ = cs₂ := by
  intro cs₁
  induction cs₁ with
  | nil =>
    intro cs₂ hlen _ _ _
    exact (List.length_eq_zero.mp hlen.symm).symm
  | cons c₁ t₁ ih =>
    intro cs₂ hlen h1 h2 heq
    match cs₂ with
    | [] => simp at hlen
    | c₂ :: t₂ =>
      have hl : t₁.length = t₂.length := by simpa using hlen
      have hm1 : c₁ ∈ hexDigits := h1 c₁ (by simp)
      have hm2 : c₂ ∈ hexDigits := h2 c₂ (by simp)
      have e1 : (c₁ :: t₁).foldl (fun a c => 16 * a + hexVal c) 0
          = hexVal c₁ * 16 ^ t₁.length + t₁.foldl (fun a c => 16 * a + hexVal c) 0 := by
        show t₁.foldl _ (16 * 0 + hexVal c₁) = _
        rw [hexFold_split t₁ (16 * 0 + hexVal c₁)]
        ring_nf
      have e2 : (c₂ :: t₂).foldl (fun a c => 16 * a + hexVal c) 0
          = hexVal c₂ * 16 ^ t₂.length + t₂.foldl (fun a c => 16 * a + hexVal c) 0 := by
        show t₂.foldl _ (16 * 0 + hexVal c₂) = _
        rw [hexFold_split t₂ (16 * 0 + hexVal c₂)]
        ring_nf
      rw [e1, e2, ← hl] at heq
      have hp : 0 < 16 ^ t₁.length := pow_pos (by decide) _
      have hr1 : t₁.foldl (fun a c => 16 * a + hexVal c) 0 < 16 ^ t₁.length :=
        hexFold_lt t₁ (fun x hx => hexVal_lt_of_mem x (h1 x (by simp [hx])))
      have hr2 : t₂.foldl (fun a c => 16 * a + hexVal c) 0 < 16 ^ t₁.length := by
        rw [hl]
        exact hexFold_lt t₂ (fun x hx => hexVal_lt_of_mem x (h2 x (by simp [hx])))
      have hv : hexVal c₁ = hexVal c₂ := by
        have d1 : (hexVal c₁ * 16 ^ t₁.length
              + t₁.foldl (fun a c => 16 * a + hexVal c) 0) / 16 ^ t₁.length
            = hexVal c₁ := by
          rw [Nat.mul_comm, Nat.mul_add_div hp, Nat.div_eq_of_lt hr1, Nat.add_zero]
        have d2 : (hexVal c₂ * 16 ^ t₁.length
              + t₂.foldl (fun a c => 16 * a + hexVal c) 0) / 16 ^ t₁.length
            = hexVal c₂ := by
          rw [Nat.mul_comm, Nat.mul_add_div hp, Nat.div_eq_of_lt hr2, Nat.add_zero]
        rw [← d1, ← d2, heq]
      have hc : c₁ = c₂ := hexVal_inj_on c₁ hm1 c₂ hm2 hv
      have ht : t₁ = t₂ := by
        refine ih t₂ hl (fun x hx => h1 x (by simp [hx]))
          (fun x hx => h2 x (by simp [hx])) ?_
        rw [hv] at heq
        omega
      rw [hc, ht]

/-- Equal `hexToNat` values of two MD5 hex digests force equal digests:
both are 32-character lowercase-hex strings. -/
theorem md5Hex_hexToNat_inj (m₁ m₂ : List Nat)
    (h : hexToNat (md5Hex m₁) = hexToNat (md5Hex m₂)) :
    md5Hex m₁ = md5Hex m₂ :=
  String.ext (hexFold_inj (md5Hex m₁).data (md5Hex m₂).data
    (by rw [md5Hex_data_length, md5Hex_data_length])
    (md5Hex_mem_hexDigits m₁) (md5Hex_mem_hexDigits m₂) h)

/-- C7: `uuid_from_string` is the UUID built from the hexadecimal MD5
digest of the UTF-8 encoding of the string; equal strings give equal
UUIDs, and strings whose MD5 digests differ give different UUIDs. -/
theorem uuid_from_string_repeatable_identity :
    (∀ s : String, uuid_from_string s = pyUUID (md5Hex (utf8Encode s))) ∧
    (∀ s t : String, s = t → uuid_from_string s = uuid_from_string t) ∧
    (∀ s t : String, md5Hex (utf8Encode s) ≠ md5Hex (utf8Encode t) →
      uuid_from_string s ≠ uuid_from_string t) := by
  refine ⟨fun s => rfl, fun s t h => by rw [h], ?_⟩
  intro s t hne heq
  exact hne (md5Hex_hexToNat_inj (utf8Encode s) (utf8Encode t) heq)

set_option maxRecDepth 100000 in
/-- Witness for C7: the strings `"a"` and `"b"` have different MD5
digests, hence different UUIDs. -/
theorem uuid_from_string_repeatable_identity_witness :
    md5Hex (utf8Encode "a") ≠ md5Hex (utf8Encode "b") ∧
    uuid_from_string "a" ≠ uuid_from_string "b" :=
  ⟨by decide, uuid_from_string_repeatable_identity.2.2 "a" "b" (by decide)⟩

/-! ## `drop_nones` and `export_metadata_file` (C5, C8)

Python values as fed to `drop_nones` are the mutual inductive family
`PVal`/`PDict`/`PList`: `None`, opaque non-`None` scalars, dicts (ordered
entry sequences), and the three sequence containers `list`, `set`, and
`tuple`, each holding a `PList` of elements.  Model sets keep their
elements in order: `drop_nones` maps elements through an identity-or-dict
transformation, so the reconstruction `type(val)(...)` never merges or
reorders anything. -/

mutual

/-- A Python value. -/
inductive PVal : Type where
  | none : PVal
  | atom (s : String) : PVal
  | dict (d : PDict) : PVal
  | list (l : PList) : PVal
  | set (l : PList) : PVal
  | tuple (l : PList) : PVal

/-- A Python dict, as its ordered key/value entries. -/
inductive PDict : Type where
  | nil : PDict
  | cons (k : String) (v : PVal) (rest : PDict) : PDict

/-- The elements of a Python list, set, or tuple. -/
inductive PList : Type where
  | nil : PList
  | cons (v : PVal) (rest : PList) : PList

end

/-- The ordered entries of a dict, as a Lean list. -/
def PDict.entries : PDict → List (String × PVal)
  | PDict.nil => []
  | PDict.cons k v rest => (k, v) :: PDict.entries rest

/-- The elements of a container, as a Lean list. -/
def PList.toList : PList → List PVal
  | PList.nil => []
  | PList.cons v rest => v :: PList.toList rest

/-- Rebuild a container from a Lean list of elements. -/
def PList.ofList : List PVal → PList
  | [] => PList.nil
  | v :: rest => PList.cons v (PList.ofList rest)

mutual

/-- `drop_nones` from `_utils.py`: recursively drop `None`-valued keys of
`dinput` and return a new dict; dict values recurse, container values are
rebuilt elementwise with dicts recursed (`None`s in lists are not
dropped), other non-`None` values are kept as they are. -/
def drop_nones : PDict → PDict
  | PDict.nil => PDict.nil
  | PDict.cons k v rest =>
    match v with
    | PVal.dict d => PDict.cons k (PVal.dict (drop_nones d)) (drop_nones rest)
    | PVal.list l => PDict.cons k (PVal.list (dropElems l)) (drop_nones rest)
    | PVal.set l => PDict.cons k (PVal.set (dropElems l)) (drop_nones rest)
    | PVal.tuple l => PDict.cons k (PVal.tuple (dropElems l)) (drop_nones rest)
    | PVal.none => drop_nones rest
    | PVal.atom s => PDict.cons k (PVal.atom s) (drop_nones rest)

/-- The generator `drop_nones(vv) if isinstance(vv, dict) else vv` over a
container's elements. -/
def dropElems : PList → PList
  | PList.nil => PList.nil
  | PList.cons v rest =>
    match v with
    | PVal.dict d => PList.cons (PVal.dict (drop_nones d)) (dropElems rest)
    | v => PList.cons v (dropElems rest)

end

/-- Whether a value is not Python `None`. -/
def isNotNone : PVal → Bool
  | PVal.none => false
  | _ => true

/-- What the claim says happens to one element of a list/set/tuple value:
dict elements are pruned recursively, everything else (including `None`)
is kept unchanged. -/
def elemTransform : PVal → PVal
  | PVal.dict d => PVal.dict (drop_nones d)
  | v => v

/-- What the claim says happens to one retained dict value: nested dicts
are pruned recursively, containers keep their type and map their elements
through `elemTransform`, and any other value is returned unchanged. -/
def valTransform : PVal → PVal
  | PVal.dict d => PVal.dict (drop_nones d)
  | PVal.list l => PVal.list (PList.ofList (l.toList.map elemTransform))
  | PVal.set l => PVal.set (PList.ofList (l.toList.map elemTransform))
  | PVal.tuple l => PVal.tuple (PList.ofList (l.toList.map elemTransform))
  | v => v

theorem PList.ofList_toList : ∀ l : PList, PList.ofList l.toList = l
  | PList.nil => rfl
  | PList.cons v rest => by
    simp only [PList.toList, PList.ofList]
    rw [PList.ofList_toList rest]

theorem dropElems_toList : ∀ l : PList,
    (dropElems l).toList = l.toList.map elemTransform
  | PList.nil => rfl
  | PList.cons v rest => by
    cases v <;>
      simp only [dropElems, PList.toList, List.map_cons, elemTransform,
        dropElems_toList rest]

theorem dropElems_eq_ofList_map (l : PList) :
    dropElems l = PList.ofList (l.toList.map elemTransform) := by
  rw [← dropElems_toList, PList.ofList_toList]

theorem drop_nones_entries : ∀ d : PDict,
    (drop_nones d).entries
      = (d.entries.filter fun e => isNotNone e.2).map fun e => (e.1, valTransform e.2)
  | PDict.nil => rfl
  | PDict.cons k v rest => by
    cases v <;>
      simp [drop_nones, PDict.entries, List.filter_cons, isNotNone,
        valTransform, drop_nones_entries rest,
        dropElems_eq_ofList_map, PList.ofList_toList]

/-- C5: `drop_nones` keeps exactly the keys whose values are not `None`
(in order), prunes nested dict values recursively — also inside `list`,
`set`, and `tuple` values, whose container type and other elements
(including `None` elements) are preserved — and returns every non-`None`,
non-container value unchanged. -/
theorem drop_nones_prunes_none_keys :
    (∀ d : PDict, (drop_nones d).entries
      = (d.entries.filter fun e => isNotNone e.2).map fun e => (e.1, valTransform e.2)) ∧
    (∀ d : PDict, (drop_nones d).entries.map Prod.fst
      = (d.entries.filter fun e => isNotNone e.2).map Prod.fst) ∧
    (∀ l : PList, (dropElems l).toList = l.toList.map elemTransform) ∧
    elemTransform PVal.none = PVal.none ∧
    (∀ s : String, valTransform (PVal.atom s) = PVal.atom s) := by
  refine ⟨drop_nones_entries, ?_, dropElems_toList, rfl, fun s => rfl⟩
  intro d
  rw [drop_nones_entries d, List.map_map]
  rfl

/-- What gets written to disk, with the external serializers (`_oyaml`
and `json`, outside `src/`) modelled as opaque constructors.
Modelled from the spec: "write a dictionary to YAML" and "reimplementing
YAML serialization" being a non-goal delegated to a third-party YAML
utility, the file content is the serializer applied to the pruned dict. -/
inductive FileContent : Type where
  | yaml (d : PDict) : FileContent
  | json (d : PDict) : FileContent

/-- One step of Python `str.replace(old, new)` with fuel (left-to-right,
non-overlapping occurrences). -/
def replaceAux (old new : List Char) : Nat → List Char → List Char
  | 0, cs => cs
  | _, [] => []
  | fuel + 1, c :: rest =>
    if old.isPrefixOf (c :: rest) then
      List.append new (replaceAux old new fuel ((c :: rest).drop old.length))
    else c :: replaceAux old new fuel rest

/-- Python `s.replace(old, new)`. -/
def pyReplaceStr (s old new : String) : String :=
  String.mk (replaceAux old.data new.data s.data.length s.data)

/-- `export_metadata_file` from `_utils.py`.  Returns the single
`(path, content)` file write, or the `RuntimeError` raised when the
metadata dict is falsy (in which case nothing is written). -/
def export_metadata_file (yfile : String) (metadata : PDict)
    (savefmt : String) (verbosity : String) : Except PyErr (String × FileContent) :=
  let _ := verbosity
  match metadata with
  | PDict.nil => Except.error PyErr.runtimeError
  | PDict.cons k v rest =>
    let xdata := drop_nones (PDict.cons k v rest)
    if savefmt = "yaml" then Except.ok (yfile, FileContent.yaml xdata)
    else Except.ok (pyReplaceStr yfile ".yml" ".json", FileContent.json xdata)

/-- C8: `export_metadata_file` raises `RuntimeError` exactly when the
metadata dict is empty (falsy), writing nothing in that case; otherwise it
writes the `None`-pruned metadata as ordered YAML to `yfile` when
`savefmt = "yaml"`, and as JSON to the path with `".yml"` replaced by
`".json"` for any other `savefmt`. -/
theorem export_metadata_file_empty_iff_error
    (yfile : String) (metadata : PDict) (savefmt verbosity : String) :
    (export_metadata_file yfile metadata savefmt verbosity
        = Except.error PyErr.runtimeError ↔ metadata = PDict.nil) ∧
    (metadata ≠ PDict.nil → savefmt = "yaml" →
      export_metadata_file yfile metadata savefmt verbosity
        = Except.ok (yfile, FileContent.yaml (drop_nones metadata))) ∧
    (metadata ≠ PDict.nil → savefmt ≠ "yaml" →
      export_metadata_file yfile metadata savefmt verbosity
        = Except.ok (pyReplaceStr yfile ".yml" ".json",
            FileContent.json (drop_nones metadata))) := by
  match metadata with
  | PDict.nil => exact ⟨by simp [export_metadata_file], fun h => absurd rfl h,
      fun h => absurd rfl h⟩
  | PDict.cons k v rest =>
    refine ⟨?_, ?_, ?_⟩
    · constructor
      · intro h
        simp only [export_metadata_file] at h
        split_ifs at h
      · intro h
        cases h
    · intro _ hfmt
      simp [export_metadata_file, hfmt]
    · intro _ hfmt
      simp [export_metadata_file, hfmt]

/-- Witness for C8 at a concrete one-entry dict, for both save formats
(and the concrete `.yml`-to-`.json` path rewrite). -/
theorem export_metadata_file_empty_iff_error_witness :
    export_metadata_file "x.yml" (PDict.cons "a" (PVal.atom "1") PDict.nil) "yaml" "WARNING"
      = Except.ok ("x.yml",
          FileContent.yaml (drop_nones (PDict.cons "a" (PVal.atom "1") PDict.nil))) ∧
    export_metadata_file "x.yml" (PDict.cons "a" (PVal.atom "1") PDict.nil) "json" "WARNING"
      = Except.ok (pyReplaceStr "x.yml" ".yml" ".json",
          FileContent.json (drop_nones (PDict.cons "a" (PVal.atom "1") PDict.nil))) ∧
    pyReplaceStr "x.yml" ".yml" ".json" = "x.json" :=
  ⟨(export_metadata_file_empty_iff_error "x.yml"
      (PDict.cons "a" (PVal.atom "1") PDict.nil) "yaml" "WARNING").2.1
      (by simp) rfl,
   (export_metadata_file_empty_iff_error "x.yml"
      (PDict.cons "a" (PVal.atom "1") PDict.nil) "json" "WARNING").2.2
      (by simp) (by simp),
   rfl⟩

/-- C1: with `fmu = 1`, the returned stem is the lowercased name, with
`"--" ++ tagname.lower()` appended when `tagname` is given, the lowercased
pretagname plus `"--"` prepended when `pretagname` is given, `"--t1"`
appended when only `t1` is given and `"--t2_t1"` (t2 before t1) appended
when both are given, and finally every `'.'` and `' '` replaced by `'_'`;
the destination is `outroot` joined with the directory determined by `loc`
(`maps`/`grids`/`tables`/`polygons`/`cubes`, default `other`), with the
subfolder appended when given. -/
theorem construct_filename_fmu1_naming
    (name : String) (pretagname tagname t1 t2 subfolder : Option String)
    (outroot loc verbosity : String) :
    construct_filename name pretagname tagname t1 t2 subfolder 1 outroot loc verbosity =
      Except.ok
        (pyReplaceChar ' ' '_' (pyReplaceChar '.' '_'
          ((if pyTruthy pretagname then pyLower (pretagname.getD "") ++ "--" else "") ++
           pyLower name ++
           (if pyTruthy tagname then "--" ++ pyLower (tagname.getD "") else "") ++
           (if pyTruthy t1 && !pyTruthy t2 then "--" ++ pyLower (t1.getD "")
            else if pyTruthy t1 && pyTruthy t2 then
              "--" ++ pyLower (t2.getD "") ++ "_" ++ pyLower (t1.getD "")
            else ""))),
         (if pyTruthy subfolder then
            ((PyPath.ofString outroot).join
              (if loc = "surface" then "maps"
               else if loc = "grid" then "grids"
               else if loc = "table" then "tables"
               else if loc = "polygons" then "polygons"
               else if loc = "cube" then "cubes"
               else "other")).join (subfolder.getD "")
          else
            (PyPath.ofString outroot).join
              (if loc = "surface" then "maps"
               else if loc = "grid" then "grids"
               else if loc = "table" then "tables"
               else if loc = "polygons" then "polygons"
               else if loc = "cube" then "cubes"
               else "other"))) := by
  unfold construct_filename
  rw [if_pos rfl]
  simp only [Except.ok.injEq, Prod.mk.injEq]
  refine ⟨?_, by split_ifs <;> rfl⟩
  split_ifs <;>
    simp [String.append_assoc, String.append_empty, String.empty_append]

/-- C2: `construct_filename` is pure and deterministic: equal arguments
(name, pretagname, tagname, t1, t2, subfolder, fmu, outroot, loc) give
equal `(stem, dest)` results, for any two verbosity arguments — the
verbosity argument never affects the returned value. -/
theorem construct_filename_deterministic
    (name₁ name₂ : String) (pre₁ pre₂ tag₁ tag₂ t11 t12 t21 t22 sub₁ sub₂ : Option String)
    (fmu₁ fmu₂ : Nat) (out₁ out₂ loc₁ loc₂ v₁ v₂ : String)
    (h : (name₁, pre₁, tag₁, t11, t21, sub₁, fmu₁, out₁, loc₁)
       = (name₂, pre₂, tag₂, t12, t22, sub₂, fmu₂, out₂, loc₂)) :
    construct_filename name₁ pre₁ tag₁ t11 t21 sub₁ fmu₁ out₁ loc₁ v₁ =
    construct_filename name₂ pre₂ tag₂ t12 t22 sub₂ fmu₂ out₂ loc₂ v₂ := by
  obtain ⟨rfl, rfl, rfl, rfl, rfl, rfl, rfl, rfl, rfl⟩ := Prod.mk.injEq .. ▸ h
  rfl

/-- Witness for C2 at concrete arguments, with two different verbosities. -/
theorem construct_filename_deterministic_witness :
    construct_filename "TopVolantis" none (some "DS_extracted") none none none
        1 "../../share/results/" "surface" "WARNING" =
    construct_filename "TopVolantis" none (some "DS_extracted") none none none
        1 "../../share/results/" "surface" "DEBUG" :=
  construct_filename_deterministic "TopVolantis" "TopVolantis" none none
    (some "DS_extracted") (some "DS_extracted") none none none none none none
    1 1 "../../share/results/" "../../share/results/" "surface" "surface"
    "WARNING" "DEBUG" rfl

/-- C9: for `fmu ≠ 1` no branch assigns `dest`, so `construct_filename`
raises `UnboundLocalError` at the return statement; it never returns the
initial stem `"unset"` together with a destination (it returns nothing). -/
theorem construct_filename_fmu_ne_one_unbound
    (name : String) (pretagname tagname t1 t2 subfolder : Option String)
    (fmu : Nat) (outroot loc verbosity : String) (h : fmu ≠ 1) :
    construct_filename name pretagname tagname t1 t2 subfolder fmu outroot loc verbosity =
      Except.error PyErr.unboundLocalError ∧
    ∀ r : String × PyPath,
      construct_filename name pretagname tagname t1 t2 subfolder fmu outroot loc verbosity ≠
        Except.ok r := by
  refine ⟨?_, ?_⟩
  · unfold construct_filename
    simp [h]
  · intro r hr
    unfold construct_filename at hr
    simp [h] at hr

/-- Witness for C9 at `fmu = 0`. -/
theorem construct_filename_fmu_ne_one_unbound_witness :
    construct_filename "x" none none none none none 0 "o" "surface" "WARNING" =
      Except.error PyErr.unboundLocalError ∧
    ∀ r : String × PyPath,
      construct_filename "x" none none none none none 0 "o" "surface" "WARNING" ≠
        Except.ok r :=
  construct_filename_fmu_ne_one_unbound "x" none none none none none 0 "o"
    "surface" "WARNING" (by decide)

end FmuDataio
